import Mathlib

/-!
Shallow embedding of the economic-ledger core of `src/bot.py`
(aireftraders/Aireftraders-TELEGRAM_BOT).

The Python module keeps three global mutable tables:
`users_db : Dict[str, Dict]`, `payments_db : List[Dict]` and
`transactions_db : List[Dict]`.  We model them as a `BotState` record whose
user table is an association list with unique insertion (a new key is only
appended by `get_user` when absent, mirroring Python's dict).  Monetary
amounts are modelled as rationals (Python mixes `int` with the `float`
results of `random.uniform`); calendar dates as absolute day numbers (`Int`);
wall-clock instants as a day/hour/minute record, which is all the code ever
inspects of `datetime.now(NIGERIA_TZ)`.

Randomness (`random.uniform`) and Telegram message delivery are external
effects: the former is passed in as an explicit sampling function, the
latter is modelled, where a claim is about it, by an explicit
failure oracle; everywhere else the `try/except` around `bot.send_message`
only logs, so it has no effect on the ledger at all.

Fields of the user record that the program initialises but never mutates or
reads in the modelled core (`last_ad_watch`, `last_game_session`, and the
name fields read defensively by `sync_with_web_app`) are omitted.
-/

namespace AirefTraders

/-- Wall-clock instant in the Africa/Lagos timezone, reduced to the
components the code inspects: the calendar day (as an absolute day number)
and the hour and minute within it. -/
structure Timestamp where
  day : Int
  hour : Nat
  minute : Nat
  deriving DecidableEq, Repr

/-- Remaining daily attempts per game (`users_db[uid]["game_attempts"]`,
see `get_user`, lines 104-112 of `src/bot.py`). -/
structure GameAttempts where
  memory : Int
  dice : Int
  snake : Int
  trivia : Int
  wheel : Int
  ayo : Int
  naira_chase : Int
  deriving DecidableEq, Repr

/-- Per-game earnings summary (`users_db[uid]["game_stats"]`, lines 113-121
of `src/bot.py`). -/
structure GameStats where
  memory_wins : Int
  memory_earnings : Int
  dice_wins : Int
  dice_earnings : Int
  snake_score : Int
  snake_earnings : Int
  trivia_correct : Int
  trivia_earnings : Int
  wheel_wins : Int
  wheel_earnings : Int
  ayo_wins : Int
  ayo_earnings : Int
  naira_chase_score : Int
  naira_chase_earnings : Int
  deriving DecidableEq, Repr

/-- A user record, mirroring the dictionary created by `get_user`
(lines 90-124 of `src/bot.py`). -/
structure User where
  balance : ℚ
  trading_capital : ℚ
  withdrawable_profit : ℚ
  referrals : Nat
  ads_watched : Nat
  verified : Bool
  trading_active : Bool
  streak_count : Nat
  streak_last_login : Option Int
  referral_bonus_eligible : Bool
  game_attempts : GameAttempts
  game_stats : GameStats
  deriving DecidableEq, Repr

/-- An entry of `transactions_db`.  The `description` key is only present on
transactions recorded by `update_balance`; the profit and withdrawal
transactions do not carry it, hence the `Option`. -/
structure Tx where
  user_id : String
  amount : ℚ
  type : String
  status : String
  timestamp : Timestamp
  description : Option String
  deriving DecidableEq, Repr

/-- An entry of `payments_db` as the code writes it: the batch records
created in `__main__` (lines 1139-1145), `check_batch` (lines 755-762) and
`process_payment_batches` (lines 991-998) all carry exactly these five
keys.  Note there is no `status` and no `amount` key. -/
structure Batch where
  id : Nat
  target_users : Nat
  current_users : Nat
  payout_date : Option Timestamp
  completed : Bool
  deriving DecidableEq, Repr

/-- The three global tables of `src/bot.py` (lines 51-53). -/
structure BotState where
  users : List (String × User)
  payments : List Batch
  transactions : List Tx
  deriving DecidableEq, Repr

/-- Fresh attempts quota, as written both by `get_user` and by
`reset_daily_limits`. -/
def defaultAttempts : GameAttempts :=
  ⟨10, 10, 10, 10, 10, 10, 10⟩

/-- All-zero game statistics, as written by `get_user`. -/
def defaultStats : GameStats :=
  ⟨0, 0, 0, 0, 0, 0, 0, 0, 0, 0, 0, 0, 0, 0⟩

/-- The record `get_user` seeds for a first-time user (lines 92-123). -/
def defaultUser : User where
  balance := 5000
  trading_capital := 0
  withdrawable_profit := 0
  referrals := 0
  ads_watched := 0
  verified := false
  trading_active := false
  streak_count := 0
  streak_last_login := none
  referral_bonus_eligible := true
  game_attempts := defaultAttempts
  game_stats := defaultStats

/-- The batch appended to `payments_db` at startup in `__main__`
(lines 1139-1145). -/
def initialBatch : Batch :=
  ⟨1, 1000, 0, none, false⟩

/-- Dictionary lookup on the user table (`users_db.get(uid)` /
`uid in users_db`): the first entry with the given key. -/
def lookupUser : List (String × User) → String → Option User
  | [], _ => none
  | p :: rest, uid => if p.1 = uid then some p.2 else lookupUser rest uid

/-- In-place mutation of the entry stored under a key (`users_db[uid][...] = ...`):
rewrite the first entry with that key, leave everything else alone. -/
def updAssoc : List (String × User) → String → (User → User) → List (String × User)
  | [], _, _ => []
  | p :: rest, uid, f =>
    if p.1 = uid then (p.1, f p.2) :: rest else p :: updAssoc rest uid f

/-- In-place mutation of the i-th element of a list (the Python code mutates
the batch object found inside `payments_db`). -/
def setIdx : List α → Nat → (α → α) → List α
  | [], _, _ => []
  | a :: rest, 0, f => f a :: rest
  | a :: rest, n + 1, f => a :: setIdx rest n f

@[simp]
theorem lookupUser_nil (uid : String) : lookupUser [] uid = none := rfl

@[simp]
theorem lookupUser_cons (p : String × User) (rest : List (String × User)) (uid : String) :
    lookupUser (p :: rest) uid = if p.1 = uid then some p.2 else lookupUser rest uid := rfl

theorem lookupUser_mem {l : List (String × User)} {uid : String} {u : User}
    (h : lookupUser l uid = some u) : (uid, u) ∈ l := by
  induction l with
  | nil => simp [lookupUser] at h
  | cons p rest ih =>
    by_cases hp : p.1 = uid
    · subst hp
      simp [lookupUser] at h
      subst h
      simp
    · simp [lookupUser, hp] at h
      exact List.mem_cons_of_mem _ (ih h)

theorem lookupUser_append (l₁ l₂ : List (String × User)) (uid : String) :
    lookupUser (l₁ ++ l₂) uid =
      match lookupUser l₁ uid with
      | some v => some v
      | none => lookupUser l₂ uid := by
  induction l₁ with
  | nil => simp [lookupUser]
  | cons p rest ih =>
    by_cases hp : p.1 = uid <;> simp [lookupUser, hp, ih]

theorem lookupUser_append_some {l₁ : List (String × User)} (l₂ : List (String × User))
    {uid : String} {u : User} (h : lookupUser l₁ uid = some u) :
    lookupUser (l₁ ++ l₂) uid = some u := by
  rw [lookupUser_append, h]

theorem lookup_updAssoc (l : List (String × User)) (k k' : String) (f : User → User) :
    lookupUser (updAssoc l k f) k' =
      if k' = k then (lookupUser l k).map f else lookupUser l k' := by
  induction l with
  | nil => by_cases h : k' = k <;> simp [updAssoc, lookupUser, h]
  | cons p rest ih =>
    by_cases hk : p.1 = k
    · by_cases hk' : k' = k
      · subst hk'
        simp [updAssoc, lookupUser, hk]
      · have hpk' : ¬p.1 = k' := fun hc => hk' (hc ▸ hk)
        have hkk' : ¬k = k' := fun hc => hk' hc.symm
        simp [updAssoc, lookupUser, hk, hk', hpk', hkk']
    · by_cases hk' : k' = k
      · subst hk'
        simp [updAssoc, lookupUser, hk, ih]
      · simp [updAssoc, lookupUser, hk, hk', ih]

theorem updAssoc_updAssoc (l : List (String × User)) (k : String) (f g : User → User) :
    updAssoc (updAssoc l k f) k g = updAssoc l k (fun v => g (f v)) := by
  induction l with
  | nil => simp [updAssoc]
  | cons p rest ih =>
    by_cases hk : p.1 = k <;> simp [updAssoc, hk, ih]

@[simp]
theorem setIdx_nil (i : Nat) (f : α → α) : setIdx ([] : List α) i f = [] := rfl

theorem getElem?_setIdx_self (l : List α) (i : Nat) (f : α → α) :
    (setIdx l i f)[i]? = (l[i]?).map f := by
  induction l generalizing i with
  | nil => simp
  | cons a rest ih =>
    cases i with
    | zero => simp [setIdx]
    | succ n => simpa [setIdx] using ih n

/-! ## Core operations, translated from `src/bot.py` -/

/-- `get_user` (lines 90-124): return the stored record, creating and
appending a default one first when the key is absent. -/
def get_user (s : BotState) (uid : String) : BotState × User :=
  match lookupUser s.users uid with
  | some u => (s, u)
  | none => ({ s with users := s.users ++ [(uid, defaultUser)] }, defaultUser)

/-- `update_balance` (lines 126-147): credit `amount` to the balance and
append a transaction.  The Telegram notification that follows (only sent
for positive amounts) is wrapped in `try/except` and only logs on failure,
so it does not touch the state; see `update_balance_notify` below for the
explicit-failure model. -/
def update_balance (uid : String) (amount : ℚ) (note : String) (now : Timestamp)
    (s : BotState) : BotState :=
  let s1 := (get_user s uid).1
  let s2 := { s1 with users := updAssoc s1.users uid (fun u => { u with balance := u.balance + amount }) }
  { s2 with transactions := s2.transactions ++
      [{ user_id := uid, amount := amount,
         type := if note = "" then ("game") else note,
         status := ("completed"), timestamp := now, description := some note }] }

/-- `update_login_streak` (lines 149-178).  `today` is
`datetime.now(NIGERIA_TZ).date()` as an absolute day number.  Note that the
function credits the bonus directly to `balance` and appends no transaction
of any kind. -/
def update_login_streak (uid : String) (today : Int) (s : BotState) : BotState :=
  let gu := get_user s uid
  let s1 := gu.1
  let u := gu.2
  if u.streak_last_login ≠ some today then
    let newStreak := if u.streak_last_login = some (today - 1) then u.streak_count + 1 else 1
    let streak_bonus : Nat := min (500 + (newStreak - 1) * 100) 1100
    { s1 with users := updAssoc s1.users uid (fun v =>
        { v with streak_count := newStreak,
                 balance := v.balance + (streak_bonus : ℚ),
                 streak_last_login := some today }) }
  else s1

/-- `check_trading_activation` (lines 222-240).  `users_db.get(user_id, {})`
yields an unstored empty dict for an unknown id, on which all the
`.get(..., default)` reads see their defaults and whose mutation is lost, so
the unknown-id case is a no-op returning `false`.  The expression on
line 228 is missing its closing parenthesis in the source; it is read here
as the evidently intended `5000 + (referrals * 5000)`, which is also the
formula `toggle_trading` uses on line 593. -/
def check_trading_activation (uid : String) (s : BotState) : BotState × Bool :=
  match lookupUser s.users uid with
  | none => (s, false)
  | some u =>
    if 6 ≤ u.referrals ∧ 20 ≤ u.ads_watched then
      if u.trading_active = false then
        ({ s with users := updAssoc s.users uid (fun v =>
            { v with trading_active := true,
                     trading_capital := 5000 + (v.referrals : ℚ) * 5000 }) }, true)
      else (s, true)
    else (s, false)

/-- The referral block of the `start` handler (lines 406-422), reached when
the deep-link argument names a stored referrer distinct from the new user:
if the referrer is still bonus-eligible with fewer than 6 referrals, bump
the count and credit ₦5000 to both balance and trading capital; on reaching
6, clear eligibility and run the activation gate. -/
def referral_step (rid : String) (s : BotState) : BotState :=
  match lookupUser s.users rid with
  | none => s
  | some referrer =>
    if referrer.referral_bonus_eligible = true ∧ referrer.referrals < 6 then
      let s1 := { s with users := updAssoc s.users rid (fun r =>
          { r with referrals := r.referrals + 1,
                   balance := r.balance + 5000,
                   trading_capital := r.trading_capital + 5000 }) }
      if 6 ≤ referrer.referrals + 1 then
        let s2 := { s1 with users := updAssoc s1.users rid (fun r =>
            { r with referral_bonus_eligible := false }) }
        (check_trading_activation rid s2).1
      else s1
    else s

/-- The `start` handler (lines 400-460) restricted to its ledger effects:
`get_user` for the caller, the referral block when a `ref_` deep-link names
a stored user other than the caller, and `update_login_streak`.
`refArg` is the referrer id already stripped of the `ref_` marker.
(The welcome message and `sync_with_web_app` do not mutate the tables.) -/
def start (uid : String) (refArg : Option String) (today : Int) (s : BotState) : BotState :=
  let s1 := (get_user s uid).1
  let s2 := match refArg with
    | some rid => if rid ≠ uid then referral_step rid s1 else s1
    | none => s1
  update_login_streak uid today s2

/-- `toggle_trading` (lines 580-602): an active user is deactivated
unconditionally; an inactive one is activated, with the capital recomputed,
only when the referral and ad requirements hold. -/
def toggle_trading (uid : String) (s : BotState) : BotState :=
  let gu := get_user s uid
  let s1 := gu.1
  let u := gu.2
  if u.trading_active = true then
    { s1 with users := updAssoc s1.users uid (fun v => { v with trading_active := false }) }
  else
    if 6 ≤ u.referrals ∧ 20 ≤ u.ads_watched then
      { s1 with users := updAssoc s1.users uid (fun v =>
          { v with trading_active := true,
                   trading_capital := 5000 + (v.referrals : ℚ) * 5000 }) }
    else s1

/-- The memory-game win branch of `handle_memory_click` (lines 318-328):
bump the stats and credit ₦800 through `update_balance`. -/
def memory_win (uid : String) (now : Timestamp) (s : BotState) : BotState :=
  let s1 := (get_user s uid).1
  let s2 := { s1 with users := updAssoc s1.users uid (fun u =>
      { u with game_stats := { u.game_stats with
          memory_wins := u.game_stats.memory_wins + 1,
          memory_earnings := u.game_stats.memory_earnings + 800 } }) }
  update_balance uid 800 ("Memory Game Win") now s2

/-- The memory-game no-match branch of `handle_memory_click`
(lines 334-337): one attempt is consumed. -/
def memory_miss (uid : String) (s : BotState) : BotState :=
  let s1 := (get_user s uid).1
  { s1 with users := updAssoc s1.users uid (fun u =>
      { u with game_attempts := { u.game_attempts with
          memory := u.game_attempts.memory - 1 } }) }

/-- `roll_dice` (lines 365-397): with attempts left, consume one and on the
50% win coin-flip (passed in as `win`) credit ₦800 through
`update_balance`. -/
def dice_roll (uid : String) (win : Bool) (now : Timestamp) (s : BotState) : BotState :=
  let gu := get_user s uid
  let s1 := gu.1
  let u := gu.2
  if u.game_attempts.dice ≤ 0 then s1
  else
    let s2 := { s1 with users := updAssoc s1.users uid (fun v =>
        { v with game_attempts := { v.game_attempts with
            dice := v.game_attempts.dice - 1 } }) }
    if win then
      let s3 := { s2 with users := updAssoc s2.users uid (fun v =>
          { v with game_stats := { v.game_stats with
              dice_wins := v.game_stats.dice_wins + 1,
              dice_earnings := v.game_stats.dice_earnings + 800 } }) }
      update_balance uid 800 ("Dice Game Win") now s3
    else s2

/-- The `ProfitTimeRange` enum (lines 57-60) together with the
first-matching-range loop of `calculate_daily_profits` (lines 877-883):
the band of rates for the current hour, `none` when no range matches (the
loop's `else: profit_pct = 0`). -/
def profitBand (hour : Nat) : Option (ℚ × ℚ) :=
  if hour ≤ 7 then some (35 / 100, 50 / 100)
  else if 8 ≤ hour ∧ hour ≤ 16 then some (21 / 100, 34 / 100)
  else if 17 ≤ hour ∧ hour ≤ 23 then some (20 / 100, 20 / 100)
  else none

/-- The sampled profit percentage for a user at a given hour
(lines 877-883): `random.uniform` — here the oracle `draw` — applied to the
matching band, 0 when no band matches.  `draw uid lo hi` stands for
`random.uniform(lo, hi)` as sampled during this user's loop iteration. -/
def profitPct (draw : String → ℚ → ℚ → ℚ) (hour : Nat) (uid : String) : ℚ :=
  match profitBand hour with
  | some lohi => draw uid lohi.1 lohi.2
  | none => 0

/-- The per-user body of `calculate_daily_profits` (lines 871-903): for an
active trader, sample a rate from the hour's band, add
`trading_capital * rate` to the withdrawable profit and append a `profit`
transaction; otherwise do nothing.  Returns the updated record and the
transactions it appends. -/
def profitStepUser (draw : String → ℚ → ℚ → ℚ) (now : Timestamp)
    (uid : String) (u : User) : User × List Tx :=
  if u.trading_active = true then
    let daily_profit := u.trading_capital * profitPct draw now.hour uid
    ({ u with withdrawable_profit := u.withdrawable_profit + daily_profit },
     [{ user_id := uid, amount := daily_profit, type := ("profit"),
        status := ("completed"), timestamp := now, description := none }])
  else (u, [])

/-- `calculate_daily_profits` (lines 869-903): the loop over
`users_db.items()`, updating each record in place and appending the profit
transactions in iteration order. -/
def calculate_daily_profits (draw : String → ℚ → ℚ → ℚ) (now : Timestamp)
    (s : BotState) : BotState :=
  { s with
    users := s.users.map (fun p => (p.1, (profitStepUser draw now p.1 p.2).1)),
    transactions := s.transactions ++
      s.users.flatMap (fun p => (profitStepUser draw now p.1 p.2).2) }

/-- The per-user assignment block of `reset_daily_limits` (lines 909-920). -/
def resetUser (u : User) : User :=
  { u with ads_watched := 0, trading_active := false, game_attempts := defaultAttempts }

/-- `reset_daily_limits` (lines 905-920): the daily job body.  It guards
only on `now.hour == 0`; there is no record of the last reset date. -/
def reset_daily_limits (now : Timestamp) (s : BotState) : BotState :=
  if now.hour = 0 then
    { s with users := s.users.map (fun p => (p.1, resetUser p.2)) }
  else s

/-- `send_automatic_messages` (lines 940-983) restricted to its only ledger
effect: the midnight branch (lines 945-951) flips `trading_active` off for
every active user when `now.hour == 0 and now.minute < 5`.  Every other
branch only sends messages. -/
def send_automatic_messages (now : Timestamp) (s : BotState) : BotState :=
  if now.hour = 0 ∧ now.minute < 5 then
    { s with users := s.users.map (fun p =>
        (p.1, if p.2.trading_active = true then { p.2 with trading_active := false } else p.2)) }
  else s

/-- The eligibility snapshot of `process_payment_batches` (lines 1002-1003):
ids of users with `verified` and at least ₦5000 of withdrawable profit, in
table order. -/
def eligible_users (s : BotState) : List String :=
  (s.users.filter (fun p => p.2.verified && decide ((5000 : ℚ) ≤ p.2.withdrawable_profit))).map
    Prod.fst

/-- The withdrawal transaction appended for a swept user (lines 1020-1026). -/
def mkWithdrawalTx (uid : String) (amount : ℚ) (now : Timestamp) : Tx :=
  { user_id := uid, amount := amount, type := ("withdrawal"),
    status := ("completed"), timestamp := now, description := none }

/-- One iteration of the settlement loop of `process_payment_batches`
(lines 1013-1033): capture the withdrawable profit, zero it, and append the
withdrawal transaction.  (The ids come from the eligibility snapshot, so
the `users_db[user_id]` lookup cannot fail; `getD 0` is unreachable.)  The
notification that follows is inside the same per-user `try/except` and only
logs on failure; see `sweep_user_notify` below. -/
def sweep_user (now : Timestamp) (s : BotState) (uid : String) : BotState :=
  let amount := ((lookupUser s.users uid).map (fun u => u.withdrawable_profit)).getD 0
  let s1 := { s with users := updAssoc s.users uid (fun u => { u with withdrawable_profit := 0 }) }
  { s1 with transactions := s1.transactions ++ [mkWithdrawalTx uid amount now] }

/-- `process_payment_batches` (lines 985-1036): locate (or lazily create)
the open batch, recount the eligible users into it, and when the count
reaches the batch's target settle every eligible user.
(`send_payment_proofs`, called at the end, only sends messages.) -/
def process_payment_batches (now : Timestamp) (s : BotState) : BotState :=
  let s0 := match s.payments.findIdx? (fun b => !b.completed) with
    | some _ => s
    | none => { s with payments := s.payments ++
        [({ id := s.payments.length + 1, target_users := 1000, current_users := 0,
            payout_date := none, completed := false } : Batch)] }
  match s0.payments.findIdx? (fun b => !b.completed) with
  | none => s0
  | some i =>
    let el := eligible_users s0
    let target := ((s0.payments[i]?).map (fun b => b.target_users)).getD 1000
    let s1 := { s0 with payments := setIdx s0.payments i (fun b => { b with current_users := el.length }) }
    if target ≤ el.length then
      let s2 := { s1 with payments := setIdx s1.payments i (fun b =>
          { b with completed := true, payout_date := some now }) }
      el.foldl (sweep_user now) s2
    else s1

/-! ## Explicit-failure models of the notification calls

The Python code wraps every `bot.send_message` in `try/except` blocks that
only log; the mutations preceding the call are never undone and, in the
settlement loop, the `except` is per user so the loop continues.  To state
this, the two operations whose claims mention it are re-given with an
explicit failure oracle (`fails uid = true` models `send_message` raising
for that user); the branch structure mirrors the `try/except`. -/

/-- `update_balance` with the notification outcome explicit (lines 140-147):
the message is only attempted for positive amounts, and a failure lands in
the `except` branch, which just logs. -/
def update_balance_notify (fails : String → Bool) (uid : String) (amount : ℚ)
    (note : String) (now : Timestamp) (s : BotState) : BotState :=
  let s2 := update_balance uid amount note now s
  if 0 < amount then
    if fails uid then s2 else s2
  else s2

/-- The settlement iteration with the notification outcome explicit
(lines 1013-1033): on failure the `except` branch logs and the loop moves
on to the next user. -/
def sweep_user_notify (fails : String → Bool) (now : Timestamp)
    (s : BotState) (uid : String) : BotState :=
  let s2 := sweep_user now s uid
  if fails uid then s2 else s2

/-- `process_payment_batches` with the per-user notification outcomes
explicit. -/
def process_payment_batches_notify (fails : String → Bool) (now : Timestamp)
    (s : BotState) : BotState :=
  let s0 := match s.payments.findIdx? (fun b => !b.completed) with
    | some _ => s
    | none => { s with payments := s.payments ++
        [({ id := s.payments.length + 1, target_users := 1000, current_users := 0,
            payout_date := none, completed := false } : Batch)] }
  match s0.payments.findIdx? (fun b => !b.completed) with
  | none => s0
  | some i =>
    let el := eligible_users s0
    let target := ((s0.payments[i]?).map (fun b => b.target_users)).getD 1000
    let s1 := { s0 with payments := setIdx s0.payments i (fun b => { b with current_users := el.length }) }
    if target ≤ el.length then
      let s2 := { s1 with payments := setIdx s1.payments i (fun b =>
          { b with completed := true, payout_date := some now }) }
      el.foldl (sweep_user_notify fails now) s2
    else s1

/-! ## Dictionary-key model for the payment records

`admin_stats` (line 800) and `admin_process_batch` (line 848) index
`p["status"]` over every record of `payments_db`.  To state what that
lookup does we expose the keys a batch record actually carries. -/

/-- A value stored under some key of a batch record. -/
inductive FieldVal where
  | natV : Nat → FieldVal
  | tsV : Option Timestamp → FieldVal
  | boolV : Bool → FieldVal
  | strV : String → FieldVal
  deriving DecidableEq, Repr

/-- Key lookup on a batch record: exactly the five keys written at every
creation site (`__main__` lines 1139-1145, `check_batch` lines 755-762,
`process_payment_batches` lines 991-998). -/
def batchField? (b : Batch) (k : String) : Option FieldVal :=
  if k = "id" then some (FieldVal.natV b.id)
  else if k = "target_users" then some (FieldVal.natV b.target_users)
  else if k = "current_users" then some (FieldVal.natV b.current_users)
  else if k = "payout_date" then some (FieldVal.tsV b.payout_date)
  else if k = "completed" then some (FieldVal.boolV b.completed)
  else none

/-- The comprehension `[p for p in payments_db if p['status'] == 'pending']`
of `admin_stats` (line 800) evaluated left to right: its length when every
record has a `status` key, `none` (a raised `KeyError`) as soon as one
record lacks it. -/
def pendingCount : List Batch → Option Nat
  | [] => some 0
  | b :: rest =>
    match batchField? b ("status") with
    | none => none
    | some v =>
      match pendingCount rest with
      | none => none
      | some n => some (if v = FieldVal.strV ("pending") then n + 1 else n)

/-! ## The operations as a step relation

Every site in `src/bot.py` that mutates `users_db` is one of the
operations below (the admin handlers and the broadcast/proof senders touch
only `payments_db` entries or send messages).  Scheduler inputs — the
wall clock and the `random` samples — are parameters of the operation. -/

/-- One invocation of a `users_db`-mutating handler or job. -/
inductive Op where
  | opStart : String → Option String → Int → Op
  | opToggle : String → Op
  | opGetUser : String → Op
  | opMemoryWin : String → Timestamp → Op
  | opMemoryMiss : String → Op
  | opDiceRoll : String → Bool → Timestamp → Op
  | opProfits : (String → ℚ → ℚ → ℚ) → Timestamp → Op
  | opReset : Timestamp → Op
  | opAutoMsg : Timestamp → Op
  | opBatches : Timestamp → Op

/-- Execute one operation. -/
def applyOp : Op → BotState → BotState
  | Op.opStart uid refArg today, s => start uid refArg today s
  | Op.opToggle uid, s => toggle_trading uid s
  | Op.opGetUser uid, s => (get_user s uid).1
  | Op.opMemoryWin uid now, s => memory_win uid now s
  | Op.opMemoryMiss uid, s => memory_miss uid s
  | Op.opDiceRoll uid win now, s => dice_roll uid win now s
  | Op.opProfits draw now, s => calculate_daily_profits draw now s
  | Op.opReset now, s => reset_daily_limits now s
  | Op.opAutoMsg now, s => send_automatic_messages now s
  | Op.opBatches now, s => process_payment_batches now s

/-- The state at process start: empty tables except for the first payment
batch seeded in `__main__` (lines 1138-1145). -/
def initState : BotState :=
  { users := [], payments := [initialBatch], transactions := [] }

/-- One step of the system. -/
def Steps (s s' : BotState) : Prop := ∃ op, s' = applyOp op s

/-- A state the process can reach from startup. -/
def Reachable (s : BotState) : Prop :=
  Relation.ReflTransGen Steps initState s

/-! ## Basic lookup lemmas about the operations -/

theorem get_user_payments (s : BotState) (uid : String) :
    (get_user s uid).1.payments = s.payments := by
  unfold get_user
  cases lookupUser s.users uid <;> rfl

theorem get_user_transactions (s : BotState) (uid : String) :
    (get_user s uid).1.transactions = s.transactions := by
  unfold get_user
  cases lookupUser s.users uid <;> rfl

theorem lookup_get_user_some {s : BotState} {k : String} {u : User} (uid : String)
    (h : lookupUser s.users k = some u) :
    lookupUser (get_user s uid).1.users k = some u := by
  unfold get_user
  cases hl : lookupUser s.users uid with
  | some v => exact h
  | none => exact lookupUser_append_some _ h

theorem lookup_get_user_self (s : BotState) (uid : String) :
    lookupUser (get_user s uid).1.users uid = some ((get_user s uid).2) := by
  unfold get_user
  cases hl : lookupUser s.users uid with
  | some v => exact hl
  | none => simp [lookupUser_append, hl]

theorem lookup_get_user_other {s : BotState} {k : String} (uid : String) (hne : k ≠ uid) :
    lookupUser (get_user s uid).1.users k = lookupUser s.users k := by
  unfold get_user
  cases hl : lookupUser s.users uid with
  | some v => rfl
  | none =>
    rw [lookupUser_append]
    cases hk : lookupUser s.users k with
    | some v => rfl
    | none =>
      have huk : ¬uid = k := fun h => hne h.symm
      simp [lookupUser, huk]

theorem lookup_update_login_streak_other {s : BotState} {k uid : String} (today : Int)
    (hne : k ≠ uid) :
    lookupUser (update_login_streak uid today s).users k = lookupUser s.users k := by
  unfold update_login_streak
  by_cases hc : (get_user s uid).2.streak_last_login ≠ some today
  · rw [if_pos hc]
    show lookupUser (updAssoc (get_user s uid).1.users uid _) k = _
    rw [lookup_updAssoc, if_neg hne, lookup_get_user_other uid hne]
  · rw [if_neg hc]
    exact lookup_get_user_other uid hne

theorem check_trading_activation_fire {s : BotState} {uid : String} {u : User}
    (hu : lookupUser s.users uid = some u)
    (hcond : 6 ≤ u.referrals ∧ 20 ≤ u.ads_watched) (hina : u.trading_active = false) :
    (check_trading_activation uid s).1 =
      { s with users := updAssoc s.users uid (fun v =>
          { v with trading_active := true,
                   trading_capital := 5000 + (v.referrals : ℚ) * 5000 }) } := by
  unfold check_trading_activation
  split
  next heq => rw [hu] at heq; cases heq
  next v heq =>
    rw [hu] at heq
    injection heq with h
    subst h
    rw [if_pos hcond, if_pos hina]

theorem check_fire_lookup {s : BotState} {uid : String} {u : User}
    (hu : lookupUser s.users uid = some u)
    (hcond : 6 ≤ u.referrals ∧ 20 ≤ u.ads_watched) (hina : u.trading_active = false)
    (k : String) :
    lookupUser (check_trading_activation uid s).1.users k =
      if k = uid then
        some { u with trading_active := true,
                      trading_capital := 5000 + (u.referrals : ℚ) * 5000 }
      else lookupUser s.users k := by
  rw [check_trading_activation_fire hu hcond hina]
  simp only []
  rw [lookup_updAssoc]
  by_cases hk : k = uid
  · simp [hk, hu]
  · simp [hk]

theorem referral_step_hit6 {s : BotState} {rid : String} {R : User}
    (hR : lookupUser s.users rid = some R)
    (hg : R.referral_bonus_eligible = true ∧ R.referrals < 6)
    (h6 : 6 ≤ R.referrals + 1) :
    referral_step rid s =
      (check_trading_activation rid
        { s with users := updAssoc (updAssoc s.users rid (fun r =>
            { r with referrals := r.referrals + 1,
                     balance := r.balance + 5000,
                     trading_capital := r.trading_capital + 5000 })) rid (fun r =>
            { r with referral_bonus_eligible := false }) }).1 := by
  unfold referral_step
  split
  next heq => rw [hR] at heq; cases heq
  next v heq =>
    rw [hR] at heq
    injection heq with h
    subst h
    rw [if_pos hg, if_pos h6]

theorem referral_step_lookup_fire {s : BotState} {rid : String} {R : User}
    (hR : lookupUser s.users rid = some R)
    (helig : R.referral_bonus_eligible = true) (h5 : R.referrals = 5)
    (hads : 20 ≤ R.ads_watched) (hina : R.trading_active = false) (k : String) :
    lookupUser (referral_step rid s).users k =
      if k = rid then
        some { R with referrals := R.referrals + 1,
                      balance := R.balance + 5000,
                      referral_bonus_eligible := false,
                      trading_active := true,
                      trading_capital := 5000 + ((R.referrals + 1 : Nat) : ℚ) * 5000 }
      else lookupUser s.users k := by
  rw [referral_step_hit6 hR ⟨helig, by omega⟩ (by omega)]
  simp only [updAssoc_updAssoc]
  have hR2 : lookupUser (updAssoc s.users rid (fun r =>
      { r with referrals := r.referrals + 1,
               balance := r.balance + 5000,
               trading_capital := r.trading_capital + 5000,
               referral_bonus_eligible := false })) rid =
      some { R with referrals := R.referrals + 1,
                    balance := R.balance + 5000,
                    trading_capital := R.trading_capital + 5000,
                    referral_bonus_eligible := false } := by
    rw [lookup_updAssoc, if_pos rfl, hR]
    rfl
  rw [check_fire_lookup hR2 (by constructor <;> simp <;> omega) (by simpa using hina) k]
  by_cases hk : k = rid
  · rw [if_pos hk, if_pos hk]
  · rw [if_neg hk, if_neg hk, lookup_updAssoc, if_neg hk]

theorem start_eq_some (uid rid : String) (today : Int) (s : BotState) (hne : rid ≠ uid) :
    start uid (some rid) today s =
      update_login_streak uid today (referral_step rid (get_user s uid).1) := by
  unfold start
  simp only []
  rw [if_pos hne]

/-- C1: a referrer stored with 5 referrals, bonus-eligible, 20 or more ads
watched and trading not yet active ends a successful `applyReferral`
(the referral block of `start`, lines 406-422 plus
`check_trading_activation`, lines 222-240) with 6 referrals, 5000 more
balance, eligibility cleared, trading active, and the capital recomputed to
35000 = 5000 + 6 * 5000. -/
theorem C1_applyReferral_scenario (s : BotState) (rid uid : String) (today : Int) (R : User)
    (hne : rid ≠ uid)
    (hR : lookupUser s.users rid = some R)
    (h5 : R.referrals = 5)
    (helig : R.referral_bonus_eligible = true)
    (hads : 20 ≤ R.ads_watched)
    (hact : R.trading_active = false) :
    ∃ R', lookupUser (start uid (some rid) today s).users rid = some R' ∧
      R'.referrals = 6 ∧
      R'.balance = R.balance + 5000 ∧
      R'.referral_bonus_eligible = false ∧
      R'.trading_active = true ∧
      R'.trading_capital = 35000 := by
  have hR1 : lookupUser (get_user s uid).1.users rid = some R := lookup_get_user_some uid hR
  rw [start_eq_some uid rid today s hne]
  rw [lookup_update_login_streak_other today hne]
  rw [referral_step_lookup_fire hR1 helig h5 hads hact rid, if_pos rfl]
  refine ⟨_, rfl, ?_, rfl, rfl, rfl, ?_⟩
  · simp [h5]
  · show 5000 + ((R.referrals + 1 : Nat) : ℚ) * 5000 = 35000
    rw [h5]
    norm_num

/-- A referrer one referral short of the cap, with the ad requirement met. -/
def userR : User :=
  { defaultUser with referrals := 5, ads_watched := 20 }

/-- A one-user store holding the referrer above. -/
def stateC1 : BotState :=
  { users := [(("R"), userR)], payments := [initialBatch], transactions := [] }

/-- Witness for C1 at a concrete store. -/
theorem C1_witness :
    (("R") : String) ≠ ("X") ∧
    lookupUser stateC1.users ("R") = some userR ∧
    userR.referrals = 5 ∧
    userR.referral_bonus_eligible = true ∧
    20 ≤ userR.ads_watched ∧
    userR.trading_active = false ∧
    ∃ R', lookupUser (start ("X") (some ("R")) 0 stateC1).users ("R") = some R' ∧
      R'.referrals = 6 ∧
      R'.balance = userR.balance + 5000 ∧
      R'.referral_bonus_eligible = false ∧
      R'.trading_active = true ∧
      R'.trading_capital = 35000 :=
  ⟨by decide, by decide, by decide, by decide, by decide, by decide,
   C1_applyReferral_scenario stateC1 ("R") ("X") 0 userR (by decide) (by decide) (by decide)
     (by decide) (by decide) (by decide)⟩

/-! ## Lookup lemmas for the mapped (whole-table) operations -/

theorem lookup_map_reset (l : List (String × User)) (k : String) :
    lookupUser (l.map (fun p => (p.1, resetUser p.2))) k =
      (lookupUser l k).map resetUser := by
  induction l with
  | nil => simp
  | cons p rest ih =>
    by_cases hp : p.1 = k <;> simp [lookupUser, hp, ih]

theorem lookup_map_automsg (l : List (String × User)) (k : String) :
    lookupUser (l.map (fun p =>
        (p.1, if p.2.trading_active = true then { p.2 with trading_active := false } else p.2))) k =
      (lookupUser l k).map (fun v =>
        if v.trading_active = true then { v with trading_active := false } else v) := by
  induction l with
  | nil => simp
  | cons p rest ih =>
    by_cases hp : p.1 = k <;> simp [lookupUser, hp, ih]

theorem lookup_map_profit (draw : String → ℚ → ℚ → ℚ) (now : Timestamp)
    (l : List (String × User)) (k : String) :
    lookupUser (l.map (fun p => (p.1, (profitStepUser draw now p.1 p.2).1))) k =
      (lookupUser l k).map (fun v => (profitStepUser draw now k v).1) := by
  induction l with
  | nil => simp
  | cons p rest ih =>
    by_cases hp : p.1 = k
    · subst hp
      simp [lookupUser]
    · simp [lookupUser, hp, ih]

/-! ## C10: the daily reset is a frame for every non-reset field -/

/-- C10: one `reset_daily_limits` tick (lines 905-920) changes at most
`ads_watched`, `trading_active` and `game_attempts`; every other field of
every stored user is untouched, whatever the wall-clock time. -/
theorem C10_reset_frame (now : Timestamp) (s : BotState) (uid : String) (u : User)
    (h : lookupUser s.users uid = some u) :
    ∃ u', lookupUser (reset_daily_limits now s).users uid = some u' ∧
      u'.balance = u.balance ∧
      u'.trading_capital = u.trading_capital ∧
      u'.withdrawable_profit = u.withdrawable_profit ∧
      u'.referrals = u.referrals ∧
      u'.verified = u.verified ∧
      u'.referral_bonus_eligible = u.referral_bonus_eligible ∧
      u'.streak_count = u.streak_count ∧
      u'.streak_last_login = u.streak_last_login ∧
      u'.game_stats = u.game_stats := by
  unfold reset_daily_limits
  by_cases hh : now.hour = 0
  · rw [if_pos hh]
    simp only []
    rw [lookup_map_reset, h]
    exact ⟨resetUser u, rfl, rfl, rfl, rfl, rfl, rfl, rfl, rfl, rfl, rfl⟩
  · rw [if_neg hh]
    exact ⟨u, h, rfl, rfl, rfl, rfl, rfl, rfl, rfl, rfl, rfl⟩

/-- Midnight, as seen by the scheduler guards. -/
def midnight : Timestamp := ⟨0, 0, 0⟩

/-- One o'clock at night. -/
def oneAm : Timestamp := ⟨0, 1, 0⟩

/-- A one-user store with a fresh default user. -/
def stateU : BotState :=
  { users := [(("u"), defaultUser)], payments := [initialBatch], transactions := [] }

/-- Witness for C10 at a concrete store. -/
theorem C10_witness :
    lookupUser stateU.users ("u") = some defaultUser ∧
    ∃ u', lookupUser (reset_daily_limits midnight stateU).users ("u") = some u' ∧
      u'.balance = defaultUser.balance ∧
      u'.trading_capital = defaultUser.trading_capital ∧
      u'.withdrawable_profit = defaultUser.withdrawable_profit ∧
      u'.referrals = defaultUser.referrals ∧
      u'.verified = defaultUser.verified ∧
      u'.referral_bonus_eligible = defaultUser.referral_bonus_eligible ∧
      u'.streak_count = defaultUser.streak_count ∧
      u'.streak_last_login = defaultUser.streak_last_login ∧
      u'.game_stats = defaultUser.game_stats :=
  ⟨by decide, C10_reset_frame midnight stateU ("u") defaultUser (by decide)⟩

/-! ## C6: the reset is keyed on the hour only, not on a last-reset date -/

/-- The state after a completed midnight reset followed by one (losing)
dice roll by the user, which consumes one attempt. -/
def stateC6b : BotState :=
  dice_roll ("u") false oneAm (reset_daily_limits midnight stateU)

/-- C6 as stated is false: after a completed hour-0 reset and an
intervening dice roll, a second hour-0 run of `reset_daily_limits` in the
same calendar day changes the user's record again (the consumed dice
attempt reappears), because the guard on line 908 is `now.hour == 0` and
no last-reset date is tracked. -/
theorem C6_counterexample :
    lookupUser (reset_daily_limits midnight stateC6b).users ("u") ≠
      lookupUser stateC6b.users ("u") := by
  decide

/-- Second application of the reset body is the identity on a reset user. -/
theorem resetUser_resetUser (u : User) : resetUser (resetUser u) = resetUser u := rfl

/-- Resetting an already-reset table changes nothing. -/
theorem reset_map_idem (l : List (String × User)) :
    (l.map (fun p => (p.1, resetUser p.2))).map (fun p => (p.1, resetUser p.2)) =
      l.map (fun p => (p.1, resetUser p.2)) := by
  induction l with
  | nil => rfl
  | cons p rest ih => simp [ih, resetUser_resetUser]

/-- C6 amended: the reset tick is a no-op whenever it fires at an hour
other than 0, and it is idempotent — an immediate second hour-0 run with no
intervening mutation is a no-op; but (see the counterexample) a second
hour-0 run after intervening activity re-resets the daily fields. -/
theorem C6_reset_idempotent (s : BotState) (now : Timestamp) :
    (now.hour ≠ 0 → reset_daily_limits now s = s) ∧
    reset_daily_limits now (reset_daily_limits now s) = reset_daily_limits now s := by
  constructor
  · intro h
    unfold reset_daily_limits
    rw [if_neg h]
  · by_cases hh : now.hour = 0
    · have h1 : reset_daily_limits now s =
          { s with users := s.users.map (fun p => (p.1, resetUser p.2)) } := by
        unfold reset_daily_limits
        rw [if_pos hh]
      rw [h1]
      unfold reset_daily_limits
      rw [if_pos hh]
      simp only []
      rw [reset_map_idem]
    · have h1 : reset_daily_limits now s = s := by
        unfold reset_daily_limits
        rw [if_neg hh]
      rw [h1, h1]

/-- Witness for the amended C6 at a concrete store. -/
theorem C6_witness :
    reset_daily_limits oneAm stateC6b = stateC6b ∧
    reset_daily_limits midnight (reset_daily_limits midnight stateU) =
      reset_daily_limits midnight stateU :=
  ⟨(C6_reset_idempotent stateC6b oneAm).1 (by decide),
   (C6_reset_idempotent stateU midnight).2⟩

/-! ## C7: the login-streak bonus -/

theorem get_user_eq_of_some {s : BotState} {uid : String} {u : User}
    (h : lookupUser s.users uid = some u) :
    get_user s uid = (s, u) := by
  unfold get_user
  rw [h]

/-- C7 as stated is false: `update_login_streak` (lines 149-178) credits
the streak bonus directly to the balance and appends no transaction at all
— after a first session start that granted the day-1 bonus of 500,
`transactions_db` is still empty. -/
theorem C7_counterexample :
    (update_login_streak ("u") 5 stateU).transactions = [] ∧
    lookupUser (update_login_streak ("u") 5 stateU).users ("u") =
      some { defaultUser with streak_count := 1, balance := 5500,
                              streak_last_login := some 5 } := by
  have hu : lookupUser stateU.users ("u") = some defaultUser := by decide
  have hgu : get_user stateU ("u") = (stateU, defaultUser) := get_user_eq_of_some hu
  constructor
  · unfold update_login_streak
    rw [hgu]
    simp only []
    rw [if_pos (by decide)]
    rfl
  · unfold update_login_streak
    rw [hgu]
    simp only []
    rw [if_pos (by decide)]
    rw [lookup_updAssoc, if_pos rfl, hu]
    simp only [Option.map, defaultUser]
    norm_num

/-- C7 amended: on a session start whose recorded last login is not today,
the streak count becomes previous+1 when the last login was yesterday and 1
otherwise; min(500 + 100*(count-1), 1100) is credited to the balance (500
at count 1, 1100 at count 7, still 1100 at count 10); the last-login date
becomes today; **no transaction is appended**; and repeating the session
start the same day is a no-op, so at most one bonus is granted per user per
calendar day. -/
theorem C7_streak_amended (s : BotState) (uid : String) (today : Int) (u : User)
    (hu : lookupUser s.users uid = some u)
    (hnot : u.streak_last_login ≠ some today) :
    ∃ u', lookupUser (update_login_streak uid today s).users uid = some u' ∧
      u'.streak_count =
        (if u.streak_last_login = some (today - 1) then u.streak_count + 1 else 1) ∧
      u'.balance = u.balance + ((min (500 + (u'.streak_count - 1) * 100) 1100 : Nat) : ℚ) ∧
      (u'.streak_count = 1 → u'.balance = u.balance + 500) ∧
      (u'.streak_count = 7 → u'.balance = u.balance + 1100) ∧
      (u'.streak_count = 10 → u'.balance = u.balance + 1100) ∧
      u'.streak_last_login = some today ∧
      (update_login_streak uid today s).transactions = s.transactions ∧
      update_login_streak uid today (update_login_streak uid today s) =
        update_login_streak uid today s := by
  have hgu : get_user s uid = (s, u) := get_user_eq_of_some hu
  have hupd : update_login_streak uid today s =
      { s with users := updAssoc s.users uid (fun v =>
          { v with
              streak_count :=
                if u.streak_last_login = some (today - 1) then u.streak_count + 1 else 1,
              balance := v.balance +
                ((min (500 + ((if u.streak_last_login = some (today - 1) then
                    u.streak_count + 1 else 1) - 1) * 100) 1100 : Nat) : ℚ),
              streak_last_login := some today }) } := by
    unfold update_login_streak
    rw [hgu]
    simp only []
    rw [if_pos hnot]
  have hlook : lookupUser (update_login_streak uid today s).users uid =
      some { u with
              streak_count :=
                if u.streak_last_login = some (today - 1) then u.streak_count + 1 else 1,
              balance := u.balance +
                ((min (500 + ((if u.streak_last_login = some (today - 1) then
                    u.streak_count + 1 else 1) - 1) * 100) 1100 : Nat) : ℚ),
              streak_last_login := some today } := by
    rw [hupd]
    simp only []
    rw [lookup_updAssoc, if_pos rfl, hu]
    rfl
  refine ⟨_, hlook, rfl, rfl, ?_, ?_, ?_, rfl, ?_, ?_⟩
  · intro h1
    simp only [] at h1 ⊢
    rw [h1]
    norm_num
  · intro h7
    simp only [] at h7 ⊢
    rw [h7]
    norm_num
  · intro h10
    simp only [] at h10 ⊢
    rw [h10]
    norm_num
  · rw [hupd]
  · rw [hupd] at hlook ⊢
    unfold update_login_streak
    rw [get_user_eq_of_some hlook]
    simp only []
    rw [if_neg (by simp)]

/-- Witness for the amended C7 at a concrete store. -/
theorem C7_witness :
    lookupUser stateU.users ("u") = some defaultUser ∧
    defaultUser.streak_last_login ≠ some 5 ∧
    ∃ u', lookupUser (update_login_streak ("u") 5 stateU).users ("u") = some u' ∧
      u'.streak_count =
        (if defaultUser.streak_last_login = some (5 - 1) then defaultUser.streak_count + 1 else 1) ∧
      u'.balance = defaultUser.balance + ((min (500 + (u'.streak_count - 1) * 100) 1100 : Nat) : ℚ) ∧
      (u'.streak_count = 1 → u'.balance = defaultUser.balance + 500) ∧
      (u'.streak_count = 7 → u'.balance = defaultUser.balance + 1100) ∧
      (u'.streak_count = 10 → u'.balance = defaultUser.balance + 1100) ∧
      u'.streak_last_login = some 5 ∧
      (update_login_streak ("u") 5 stateU).transactions = stateU.transactions ∧
      update_login_streak ("u") 5 (update_login_streak ("u") 5 stateU) =
        update_login_streak ("u") 5 stateU :=
  ⟨by decide, by decide,
   C7_streak_amended stateU ("u") 5 defaultUser (by decide) (by decide)⟩

/-! ## C8: notification failures never touch the ledger -/

/-- C8: the ledger outcome of `update_balance` (lines 126-147) and of a
batch sweep (`process_payment_batches`, lines 985-1036) is identical
whatever the notification outcomes: the `try/except` around
`bot.send_message` only logs, the mutations before it are never rolled
back, and a failure for one swept user does not stop the loop over the
remaining users (the `except` is per user), so the swept state equals the
state of a run in which every notification succeeds. -/
theorem C8_notify_failures_harmless (fails : String → Bool) (now : Timestamp)
    (s : BotState) (uid : String) (amount : ℚ) (note : String) :
    process_payment_batches_notify fails now s = process_payment_batches now s ∧
    update_balance_notify fails uid amount note now s = update_balance uid amount note now s := by
  have hsw : sweep_user_notify fails now = sweep_user now := by
    funext s' uid'
    unfold sweep_user_notify
    simp [ite_self]
  constructor
  · unfold process_payment_batches_notify process_payment_batches
    rw [hsw]
  · unfold update_balance_notify
    simp [ite_self]

/-! ## C9: batch records carry no `status` key -/

/-- C9 as claimed is false of the code, and the code is at fault: the very
first record of `payments_db` — the batch seeded in `__main__`
(lines 1139-1145) — has no `status` key, so the comprehension
`[p for p in payments_db if p['status'] == 'pending']` in `admin_stats`
(line 800, also line 848 of `admin_process_batch`) raises `KeyError` on
the startup store. -/
theorem C9_admin_status_keyerror :
    batchField? initialBatch ("status") = none ∧
    pendingCount [initialBatch] = none := by
  constructor <;> rfl

/-! ## C3: hourly profit accrual -/

/-- The rate band of each hour, as the spec states it: hours 0-7 give
uniform(0.35, 0.50), hours 8-16 uniform(0.21, 0.34), hours 17-23 the flat
rate 0.20, and any other hour the rate 0. -/
def rateInBand (hour : Nat) (r : ℚ) : Prop :=
  if hour ≤ 7 then 35 / 100 ≤ r ∧ r ≤ 50 / 100
  else if hour ≤ 16 then 21 / 100 ≤ r ∧ r ≤ 34 / 100
  else if hour ≤ 23 then r = 20 / 100
  else r = 0

theorem profitBand_cases (hour : Nat) :
    (hour ≤ 7 ∧ profitBand hour = some (35 / 100, 50 / 100)) ∨
    ((8 ≤ hour ∧ hour ≤ 16) ∧ profitBand hour = some (21 / 100, 34 / 100)) ∨
    ((17 ≤ hour ∧ hour ≤ 23) ∧ profitBand hour = some (20 / 100, 20 / 100)) ∨
    (24 ≤ hour ∧ profitBand hour = none) := by
  unfold profitBand
  by_cases h7 : hour ≤ 7
  · exact Or.inl ⟨h7, by rw [if_pos h7]⟩
  · by_cases h16 : hour ≤ 16
    · refine Or.inr (Or.inl ⟨⟨by omega, h16⟩, ?_⟩)
      rw [if_neg h7, if_pos ⟨by omega, h16⟩]
    · by_cases h23 : hour ≤ 23
      · refine Or.inr (Or.inr (Or.inl ⟨⟨by omega, h23⟩, ?_⟩))
        rw [if_neg h7, if_neg (by omega), if_pos ⟨by omega, h23⟩]
      · refine Or.inr (Or.inr (Or.inr ⟨by omega, ?_⟩))
        rw [if_neg h7, if_neg (by omega), if_neg (by omega)]

theorem profitPct_inBand (draw : String → ℚ → ℚ → ℚ) (hour : Nat) (uid : String)
    (hdraw : ∀ lo hi : ℚ, lo ≤ hi → lo ≤ draw uid lo hi ∧ draw uid lo hi ≤ hi) :
    rateInBand hour (profitPct draw hour uid) := by
  unfold profitPct rateInBand
  rcases profitBand_cases hour with ⟨h7, hb⟩ | ⟨⟨h8, h16⟩, hb⟩ | ⟨⟨h17, h23⟩, hb⟩ | ⟨h24, hb⟩
  · rw [hb, if_pos h7]
    exact hdraw _ _ (by norm_num)
  · rw [hb, if_neg (by omega), if_pos h16]
    exact hdraw _ _ (by norm_num)
  · rw [hb, if_neg (by omega), if_neg (by omega), if_pos h23]
    have h := hdraw (20 / 100) (20 / 100) le_rfl
    exact le_antisymm h.2 h.1
  · rw [hb, if_neg (by omega), if_neg (by omega), if_neg (by omega)]

theorem tx_user_profitStep {draw : String → ℚ → ℚ → ℚ} {now : Timestamp} {k : String}
    {v : User} {t : Tx} (h : t ∈ (profitStepUser draw now k v).2) : t.user_id = k := by
  unfold profitStepUser at h
  by_cases ha : v.trading_active = true
  · rw [if_pos ha] at h
    simp only [List.mem_singleton] at h
    subst h
    rfl
  · rw [if_neg ha] at h
    exact absurd h (List.not_mem_nil t)

theorem filter_flatMap_profit (draw : String → ℚ → ℚ → ℚ) (now : Timestamp)
    (l : List (String × User)) (uid : String) (u : User)
    (hnd : (l.map Prod.fst).Nodup) (hl : lookupUser l uid = some u) :
    (l.flatMap (fun p => (profitStepUser draw now p.1 p.2).2)).filter
        (fun t => decide (t.user_id = uid)) =
      (profitStepUser draw now uid u).2 := by
  induction l with
  | nil => simp at hl
  | cons p rest ih =>
    rw [List.flatMap_cons, List.filter_append]
    by_cases hp : p.1 = uid
    · subst hp
      rw [lookupUser_cons, if_pos rfl] at hl
      injection hl with hl
      subst hl
      have h1 : (profitStepUser draw now p.1 p.2).2.filter
          (fun t => decide (t.user_id = p.1)) = (profitStepUser draw now p.1 p.2).2 := by
        apply List.filter_eq_self.mpr
        intro t ht
        simp [tx_user_profitStep ht]
      have h2 : (rest.flatMap (fun q => (profitStepUser draw now q.1 q.2).2)).filter
          (fun t => decide (t.user_id = p.1)) = [] := by
        apply List.filter_eq_nil_iff.mpr
        intro t ht
        rcases List.mem_flatMap.mp ht with ⟨q, hq, htq⟩
        have htu := tx_user_profitStep htq
        have hqk : q.1 ∈ rest.map Prod.fst := List.mem_map_of_mem Prod.fst hq
        have hne : q.1 ≠ p.1 := by
          intro hc
          rw [List.map_cons] at hnd
          exact (List.nodup_cons.mp hnd).1 (hc ▸ hqk)
        simp [htu, hne]
      rw [h1, h2, List.append_nil]
    · rw [lookupUser_cons, if_neg hp] at hl
      have hnd' : (rest.map Prod.fst).Nodup := by
        rw [List.map_cons] at hnd
        exact (List.nodup_cons.mp hnd).2
      have h1 : (profitStepUser draw now p.1 p.2).2.filter
          (fun t => decide (t.user_id = uid)) = [] := by
        apply List.filter_eq_nil_iff.mpr
        intro t ht
        simp [tx_user_profitStep ht, hp]
      rw [h1, List.nil_append, ih hnd' hl]

/-- C3: one `calculate_daily_profits` run (lines 869-903).  A user with
trading inactive is untouched and gets no transaction.  An active user is
credited `trading_capital * r` into `withdrawable_profit`, where the
sampled rate `r` lies in the band of the current local hour (0-7:
uniform(0.35, 0.50); 8-16: uniform(0.21, 0.34); 17-23: flat 0.20; any
other hour: 0), and exactly one `profit` transaction carrying that amount
and the current timestamp is appended for them.  The `random.uniform`
oracle is only assumed to return a value inside the interval it is given. -/
theorem C3_profit_accrual (draw : String → ℚ → ℚ → ℚ) (now : Timestamp) (s : BotState)
    (hdraw : ∀ (uid : String) (lo hi : ℚ), lo ≤ hi →
      lo ≤ draw uid lo hi ∧ draw uid lo hi ≤ hi)
    (hnd : (s.users.map Prod.fst).Nodup)
    (uid : String) (u : User) (hu : lookupUser s.users uid = some u) :
    (u.trading_active = false →
      lookupUser (calculate_daily_profits draw now s).users uid = some u ∧
      ((calculate_daily_profits draw now s).transactions.drop
          s.transactions.length).filter (fun t => decide (t.user_id = uid)) = []) ∧
    (u.trading_active = true →
      ∃ r, rateInBand now.hour r ∧
        lookupUser (calculate_daily_profits draw now s).users uid =
          some { u with withdrawable_profit :=
                          u.withdrawable_profit + u.trading_capital * r } ∧
        ((calculate_daily_profits draw now s).transactions.drop
            s.transactions.length).filter (fun t => decide (t.user_id = uid)) =
          [{ user_id := uid, amount := u.trading_capital * r, type := ("profit"),
             status := ("completed"), timestamp := now, description := none }]) := by
  have hdrop : (calculate_daily_profits draw now s).transactions.drop
      s.transactions.length =
      s.users.flatMap (fun p => (profitStepUser draw now p.1 p.2).2) := by
    unfold calculate_daily_profits
    simp only []
    rw [List.drop_left]
  have hfil := filter_flatMap_profit draw now s.users uid u hnd hu
  have hlook : lookupUser (calculate_daily_profits draw now s).users uid =
      some ((profitStepUser draw now uid u).1) := by
    unfold calculate_daily_profits
    simp only []
    rw [lookup_map_profit, hu]
    rfl
  constructor
  · intro hina
    have hstep : profitStepUser draw now uid u = (u, []) := by
      unfold profitStepUser
      rw [if_neg (by rw [hina]; simp)]
    constructor
    · rw [hlook, hstep]
    · rw [hdrop, hfil, hstep]
  · intro hact
    have hstep : profitStepUser draw now uid u =
        ({ u with withdrawable_profit :=
             u.withdrawable_profit + u.trading_capital * profitPct draw now.hour uid },
         [{ user_id := uid, amount := u.trading_capital * profitPct draw now.hour uid,
            type := ("profit"), status := ("completed"), timestamp := now,
            description := none }]) := by
      unfold profitStepUser
      rw [if_pos hact]
    refine ⟨profitPct draw now.hour uid,
      profitPct_inBand draw now.hour uid (fun lo hi h => hdraw uid lo hi h), ?_, ?_⟩
    · rw [hlook, hstep]
    · rw [hdrop, hfil, hstep]

/-- A stored active trader. -/
def userT : User :=
  { defaultUser with trading_active := true, trading_capital := 1000 }

/-- A one-user store holding the active trader. -/
def stateC3 : BotState :=
  { users := [(("t"), userT)], payments := [initialBatch], transactions := [] }

/-- The lower-endpoint sampler. -/
def drawLo : String → ℚ → ℚ → ℚ := fun _ lo _ => lo

/-- Three in the morning. -/
def threeAm : Timestamp := ⟨0, 3, 0⟩

/-- Witness for C3 at a concrete store and sampler. -/
theorem C3_witness :
    (∀ (uid : String) (lo hi : ℚ), lo ≤ hi →
      lo ≤ drawLo uid lo hi ∧ drawLo uid lo hi ≤ hi) ∧
    (stateC3.users.map Prod.fst).Nodup ∧
    lookupUser stateC3.users ("t") = some userT ∧
    ((userT.trading_active = false →
      lookupUser (calculate_daily_profits drawLo threeAm stateC3).users ("t") = some userT ∧
      ((calculate_daily_profits drawLo threeAm stateC3).transactions.drop
          stateC3.transactions.length).filter (fun t => decide (t.user_id = ("t"))) = []) ∧
    (userT.trading_active = true →
      ∃ r, rateInBand threeAm.hour r ∧
        lookupUser (calculate_daily_profits drawLo threeAm stateC3).users ("t") =
          some { userT with withdrawable_profit :=
                          userT.withdrawable_profit + userT.trading_capital * r } ∧
        ((calculate_daily_profits drawLo threeAm stateC3).transactions.drop
            stateC3.transactions.length).filter (fun t => decide (t.user_id = ("t"))) =
          [{ user_id := ("t"), amount := userT.trading_capital * r, type := ("profit"),
             status := ("completed"), timestamp := threeAm, description := none }])) :=
  ⟨fun _ lo hi h => ⟨le_refl lo, h⟩, by decide, by decide,
   C3_profit_accrual drawLo threeAm stateC3 (fun _ lo hi h => ⟨le_refl lo, h⟩)
     (by decide) ("t") userT (by decide)⟩

/-! ## C2: the threshold-gated batch sweep -/

theorem sweep_user_users (now : Timestamp) (s : BotState) (uid : String) :
    (sweep_user now s uid).users =
      updAssoc s.users uid (fun u => { u with withdrawable_profit := 0 }) := rfl

theorem sweep_user_payments (now : Timestamp) (s : BotState) (uid : String) :
    (sweep_user now s uid).payments = s.payments := rfl

theorem sweep_user_transactions (now : Timestamp) (s : BotState) (uid : String) :
    (sweep_user now s uid).transactions = s.transactions ++
      [mkWithdrawalTx uid
        (((lookupUser s.users uid).map (fun u => u.withdrawable_profit)).getD 0) now] := rfl

/-- What the settlement loop does, by induction over the (duplicate-free)
eligibility snapshot: the payment table is untouched, exactly one
withdrawal transaction per listed user is appended, each listed user's
withdrawable profit is zeroed, and unlisted users are untouched. -/
theorem sweep_foldl_spec (now : Timestamp) (el : List String) :
    ∀ s : BotState, el.Nodup →
      ∃ app : List Tx,
        (el.foldl (sweep_user now) s).transactions = s.transactions ++ app ∧
        (el.foldl (sweep_user now) s).payments = s.payments ∧
        (∀ uid, uid ∉ el →
          lookupUser (el.foldl (sweep_user now) s).users uid = lookupUser s.users uid ∧
          app.filter (fun t => decide (t.user_id = uid)) = []) ∧
        (∀ uid u, uid ∈ el → lookupUser s.users uid = some u →
          lookupUser (el.foldl (sweep_user now) s).users uid =
            some { u with withdrawable_profit := 0 } ∧
          app.filter (fun t => decide (t.user_id = uid)) =
            [mkWithdrawalTx uid u.withdrawable_profit now]) := by
  induction el with
  | nil =>
    intro s _
    exact ⟨[], by simp, rfl, fun uid _ => ⟨rfl, rfl⟩,
      fun uid u hmem _ => absurd hmem (List.not_mem_nil uid)⟩
  | cons a rest ih =>
    intro s hnd
    have hna : a ∉ rest := (List.nodup_cons.mp hnd).1
    have hndr : rest.Nodup := (List.nodup_cons.mp hnd).2
    rw [List.foldl_cons]
    obtain ⟨app', htx', hpay', hout', hin'⟩ := ih (sweep_user now s a) hndr
    refine ⟨mkWithdrawalTx a
        (((lookupUser s.users a).map (fun u => u.withdrawable_profit)).getD 0) now :: app',
      ?_, ?_, ?_, ?_⟩
    · rw [htx', sweep_user_transactions, List.append_assoc, List.singleton_append]
    · rw [hpay', sweep_user_payments]
    · intro uid hout
      have hua : uid ≠ a := fun hc => hout (hc ▸ List.mem_cons_self a rest)
      have hur : uid ∉ rest := fun hc => hout (List.mem_cons_of_mem a hc)
      obtain ⟨ho1, ho2⟩ := hout' uid hur
      constructor
      · rw [ho1, sweep_user_users, lookup_updAssoc, if_neg hua]
      · rw [List.filter_cons_of_neg (by simp [mkWithdrawalTx]; exact fun h => hua h.symm)]
        exact ho2
    · intro uid u hmem hu
      rcases List.mem_cons.mp hmem with rfl | hmemr
      · obtain ⟨ho1, ho2⟩ := hout' uid hna
        have hs1 : lookupUser (sweep_user now s uid).users uid =
            some { u with withdrawable_profit := 0 } := by
          rw [sweep_user_users, lookup_updAssoc, if_pos rfl, hu]
          rfl
        constructor
        · rw [ho1, hs1]
        · have hamt : ((lookupUser s.users uid).map
              (fun v => v.withdrawable_profit)).getD 0 = u.withdrawable_profit := by
            rw [hu]
            rfl
          rw [List.filter_cons_of_pos (by simp [mkWithdrawalTx]), ho2, hamt]
      · have hua : uid ≠ a := fun hc => hna (hc ▸ hmemr)
        have hs1 : lookupUser (sweep_user now s a).users uid = some u := by
          rw [sweep_user_users, lookup_updAssoc, if_neg hua, hu]
        obtain ⟨hi1, hi2⟩ := hin' uid u hmemr hs1
        refine ⟨hi1, ?_⟩
        rw [List.filter_cons_of_neg (by simp [mkWithdrawalTx]; exact fun h => hua h.symm)]
        exact hi2

theorem mem_eligible_users {s : BotState} {uid : String} {u : User}
    (hu : lookupUser s.users uid = some u) (hv : u.verified = true)
    (hw : (5000 : ℚ) ≤ u.withdrawable_profit) : uid ∈ eligible_users s := by
  unfold eligible_users
  have hmem : (uid, u) ∈ s.users := lookupUser_mem hu
  have hf : (uid, u) ∈ s.users.filter
      (fun p => p.2.verified && decide ((5000 : ℚ) ≤ p.2.withdrawable_profit)) :=
    List.mem_filter.mpr ⟨hmem, by simp [hv, hw]⟩
  exact List.mem_map_of_mem Prod.fst hf

theorem eligible_users_nodup {s : BotState} (hnd : (s.users.map Prod.fst).Nodup) :
    (eligible_users s).Nodup := by
  unfold eligible_users
  exact hnd.sublist ((List.filter_sublist s.users).map Prod.fst)

/-- C2: on a tick of `process_payment_batches` (lines 985-1036) in a state
whose set of eligible users (verified, withdrawable profit at least 5000)
is at least as large as the open batch's target: the open batch ends
completed with its payout date stamped and its count updated, every
eligible user's withdrawable profit is zeroed, and exactly one withdrawal
transaction carrying that user's pre-sweep withdrawable profit is appended
per eligible user. -/
theorem C2_batch_sweep (s : BotState) (now : Timestamp) (i : Nat) (b : Batch)
    (hnd : (s.users.map Prod.fst).Nodup)
    (hopen : s.payments.findIdx? (fun x => !x.completed) = some i)
    (hb : s.payments[i]? = some b)
    (hthr : b.target_users ≤ (eligible_users s).length) :
    (∃ b', (process_payment_batches now s).payments[i]? = some b' ∧
        b'.completed = true ∧ b'.payout_date = some now ∧
        b'.current_users = (eligible_users s).length) ∧
    (∀ uid u, lookupUser s.users uid = some u → u.verified = true →
      (5000 : ℚ) ≤ u.withdrawable_profit →
      lookupUser (process_payment_batches now s).users uid =
        some { u with withdrawable_profit := 0 } ∧
      ((process_payment_batches now s).transactions.drop s.transactions.length).filter
        (fun t => decide (t.user_id = uid)) =
        [mkWithdrawalTx uid u.withdrawable_profit now]) := by
  have heq : process_payment_batches now s =
      (eligible_users s).foldl (sweep_user now)
        { s with payments := (setIdx (setIdx s.payments i
            (fun x => { x with current_users := (eligible_users s).length })) i
            (fun x => { x with completed := true, payout_date := some now })) } := by
    unfold process_payment_batches
    simp only []
    rw [hopen]
    simp only []
    rw [hopen]
    simp only []
    rw [hb]
    rw [Option.map_some', Option.getD_some]
    rw [if_pos hthr]
  obtain ⟨app, htx, hpay, hout, hin⟩ :=
    sweep_foldl_spec now (eligible_users s)
      { s with payments := (setIdx (setIdx s.payments i
          (fun x => { x with current_users := (eligible_users s).length })) i
          (fun x => { x with completed := true, payout_date := some now })) }
      (eligible_users_nodup hnd)
  constructor
  · refine ⟨({ b with current_users := (eligible_users s).length, completed := true, payout_date := some now } : Batch), ?_, rfl, rfl, rfl⟩
    rw [heq, hpay]
    simp only []
    rw [getElem?_setIdx_self, getElem?_setIdx_self, hb]
    rfl
  · intro uid u hu hv hw
    have hel : uid ∈ eligible_users s := mem_eligible_users hu hv hw
    obtain ⟨hz, hf⟩ := hin uid u hel hu
    refine ⟨by rw [heq]; exact hz, ?_⟩
    rw [heq, htx]
    simp only []
    rw [List.drop_left]
    exact hf

/-- Three verified users above the payout floor. -/
def userV : User :=
  { defaultUser with verified := true, withdrawable_profit := 6000 }

/-- A store whose open batch targets three users, with three eligible
users present. -/
def stateC2 : BotState :=
  { users := [(("a"), userV), (("b"), userV), (("c"), userV)],
    payments := [⟨1, 3, 0, none, false⟩],
    transactions := [] }

/-- Witness for C2 at a concrete store. -/
theorem C2_witness :
    (stateC2.users.map Prod.fst).Nodup ∧
    stateC2.payments.findIdx? (fun x => !x.completed) = some 0 ∧
    stateC2.payments[0]? = some ⟨1, 3, 0, none, false⟩ ∧
    (⟨1, 3, 0, none, false⟩ : Batch).target_users ≤ (eligible_users stateC2).length ∧
    ((∃ b', (process_payment_batches midnight stateC2).payments[0]? = some b' ∧
        b'.completed = true ∧ b'.payout_date = some midnight ∧
        b'.current_users = (eligible_users stateC2).length) ∧
    (∀ uid u, lookupUser stateC2.users uid = some u → u.verified = true →
      (5000 : ℚ) ≤ u.withdrawable_profit →
      lookupUser (process_payment_batches midnight stateC2).users uid =
        some { u with withdrawable_profit := 0 } ∧
      ((process_payment_batches midnight stateC2).transactions.drop
          stateC2.transactions.length).filter (fun t => decide (t.user_id = uid)) =
        [mkWithdrawalTx uid u.withdrawable_profit midnight])) :=
  ⟨by decide, by decide, by decide, by decide,
   C2_batch_sweep stateC2 midnight 0 ⟨1, 3, 0, none, false⟩ (by decide) (by decide)
     (by decide) (by decide)⟩

/-! ## C4: the referral-count invariant over all reachable states -/

/-- The invariant claimed for a single user record: the referral count is
capped at 6 and a still-eligible user is strictly below the cap. -/
def RefInv (u : User) : Prop :=
  u.referrals ≤ 6 ∧ (u.referral_bonus_eligible = true → u.referrals < 6)

/-- The invariant over a whole user table. -/
def RefInvTable (l : List (String × User)) : Prop :=
  ∀ uid u, lookupUser l uid = some u → RefInv u

theorem refInv_default : RefInv defaultUser := by
  constructor <;> simp [defaultUser]

theorem refInvTable_updAssoc {l : List (String × User)} {k : String} {f : User → User}
    (hf : ∀ v, RefInv v → RefInv (f v)) (h : RefInvTable l) :
    RefInvTable (updAssoc l k f) := by
  intro uid u hu
  rw [lookup_updAssoc] at hu
  by_cases hk : uid = k
  · rw [if_pos hk] at hu
    cases hl : lookupUser l k with
    | none => rw [hl] at hu; cases hu
    | some v =>
      rw [hl, Option.map_some'] at hu
      injection hu with hu
      exact hu ▸ hf v (h k v hl)
  · rw [if_neg hk] at hu
    exact h uid u hu

theorem refInvTable_updAssoc_of_lookup {l : List (String × User)} {k : String}
    {f : User → User} {v : User} (hv : lookupUser l k = some v)
    (hfv : RefInv (f v)) (h : RefInvTable l) :
    RefInvTable (updAssoc l k f) := by
  intro uid u hu
  rw [lookup_updAssoc] at hu
  by_cases hk : uid = k
  · rw [if_pos hk, hv, Option.map_some'] at hu
    injection hu with hu
    exact hu ▸ hfv
  · rw [if_neg hk] at hu
    exact h uid u hu

theorem refInvTable_append_default {l : List (String × User)} {k : String}
    (h : RefInvTable l) : RefInvTable (l ++ [(k, defaultUser)]) := by
  intro uid u hu
  rw [lookupUser_append] at hu
  cases hl : lookupUser l uid with
  | some w =>
    rw [hl] at hu
    injection hu with hu
    exact hu ▸ h uid w hl
  | none =>
    rw [hl] at hu
    simp only [lookupUser_cons, lookupUser_nil] at hu
    by_cases hk : k = uid
    · rw [if_pos hk] at hu
      injection hu with hu
      exact hu ▸ refInv_default
    · rw [if_neg hk] at hu
      cases hu

theorem get_user_eq_of_none {s : BotState} {uid : String}
    (h : lookupUser s.users uid = none) :
    get_user s uid = ({ s with users := s.users ++ [(uid, defaultUser)] }, defaultUser) := by
  unfold get_user
  rw [h]

theorem refInvTable_get_user {s : BotState} (uid : String) (h : RefInvTable s.users) :
    RefInvTable (get_user s uid).1.users := by
  cases hl : lookupUser s.users uid with
  | some u => rw [get_user_eq_of_some hl]; exact h
  | none => rw [get_user_eq_of_none hl]; exact refInvTable_append_default h

theorem refInvTable_update_balance {uid : String} {amount : ℚ} {note : String}
    {now : Timestamp} {s : BotState} (h : RefInvTable s.users) :
    RefInvTable (update_balance uid amount note now s).users := by
  unfold update_balance
  simp only []
  exact refInvTable_updAssoc (fun v hv => hv) (refInvTable_get_user uid h)

theorem refInvTable_update_login_streak {uid : String} {today : Int} {s : BotState}
    (h : RefInvTable s.users) :
    RefInvTable (update_login_streak uid today s).users := by
  unfold update_login_streak
  simp only []
  by_cases hc : (get_user s uid).2.streak_last_login ≠ some today
  · rw [if_pos hc]
    simp only []
    exact refInvTable_updAssoc (fun v hv => hv) (refInvTable_get_user uid h)
  · rw [if_neg hc]
    exact refInvTable_get_user uid h

theorem refInvTable_check_activation {uid : String} {s : BotState}
    (h : RefInvTable s.users) :
    RefInvTable (check_trading_activation uid s).1.users := by
  unfold check_trading_activation
  split
  next heq => exact h
  next v heq =>
    split
    · split
      · simp only []
        exact refInvTable_updAssoc (fun w hw => hw) h
      · exact h
    · exact h

theorem refInvTable_referral_step {rid : String} {s : BotState}
    (h : RefInvTable s.users) :
    RefInvTable (referral_step rid s).users := by
  unfold referral_step
  split
  next heq => exact h
  next referrer heq =>
    split
    next hg =>
      split
      next h6 =>
        apply refInvTable_check_activation
        simp only []
        rw [updAssoc_updAssoc]
        apply refInvTable_updAssoc_of_lookup heq ?_ h
        constructor
        · show referrer.referrals + 1 ≤ 6
          omega
        · intro hel
          exact absurd hel (by simp)
      next h6 =>
        apply refInvTable_updAssoc_of_lookup heq ?_ h
        constructor
        · show referrer.referrals + 1 ≤ 6
          omega
        · intro _
          show referrer.referrals + 1 < 6
          omega
    next hg => exact h

theorem refInvTable_start {uid : String} {refArg : Option String} {today : Int}
    {s : BotState} (h : RefInvTable s.users) :
    RefInvTable (start uid refArg today s).users := by
  unfold start
  simp only []
  apply refInvTable_update_login_streak
  cases refArg with
  | none => exact refInvTable_get_user uid h
  | some rid =>
    simp only []
    by_cases hne : rid ≠ uid
    · rw [if_pos hne]
      exact refInvTable_referral_step (refInvTable_get_user uid h)
    · rw [if_neg hne]
      exact refInvTable_get_user uid h

theorem refInvTable_toggle {uid : String} {s : BotState} (h : RefInvTable s.users) :
    RefInvTable (toggle_trading uid s).users := by
  unfold toggle_trading
  simp only []
  split
  · exact refInvTable_updAssoc (fun v hv => hv) (refInvTable_get_user uid h)
  · split
    · exact refInvTable_updAssoc (fun v hv => hv) (refInvTable_get_user uid h)
    · exact refInvTable_get_user uid h

theorem refInvTable_memory_win {uid : String} {now : Timestamp} {s : BotState}
    (h : RefInvTable s.users) :
    RefInvTable (memory_win uid now s).users := by
  unfold memory_win
  simp only []
  exact refInvTable_update_balance
    (refInvTable_updAssoc (fun v hv => hv) (refInvTable_get_user uid h))

theorem refInvTable_memory_miss {uid : String} {s : BotState} (h : RefInvTable s.users) :
    RefInvTable (memory_miss uid s).users := by
  unfold memory_miss
  simp only []
  exact refInvTable_updAssoc (fun v hv => hv) (refInvTable_get_user uid h)

theorem refInvTable_dice_roll {uid : String} {win : Bool} {now : Timestamp} {s : BotState}
    (h : RefInvTable s.users) :
    RefInvTable (dice_roll uid win now s).users := by
  unfold dice_roll
  simp only []
  split
  · exact refInvTable_get_user uid h
  · split
    · exact refInvTable_update_balance
        (refInvTable_updAssoc (fun v hv => hv)
          (refInvTable_updAssoc (fun v hv => hv) (refInvTable_get_user uid h)))
    · exact refInvTable_updAssoc (fun v hv => hv) (refInvTable_get_user uid h)

theorem refInv_profitStep {draw : String → ℚ → ℚ → ℚ} {now : Timestamp} {uid : String}
    {v : User} (hv : RefInv v) : RefInv (profitStepUser draw now uid v).1 := by
  unfold profitStepUser
  by_cases ha : v.trading_active = true
  · rw [if_pos ha]
    exact hv
  · rw [if_neg ha]
    exact hv

theorem refInvTable_profits {draw : String → ℚ → ℚ → ℚ} {now : Timestamp} {s : BotState}
    (h : RefInvTable s.users) :
    RefInvTable (calculate_daily_profits draw now s).users := by
  unfold calculate_daily_profits
  simp only []
  intro uid u hu
  rw [lookup_map_profit] at hu
  cases hl : lookupUser s.users uid with
  | none => rw [hl] at hu; cases hu
  | some v =>
    rw [hl, Option.map_some'] at hu
    injection hu with hu
    exact hu ▸ refInv_profitStep (h uid v hl)

theorem refInvTable_reset {now : Timestamp} {s : BotState} (h : RefInvTable s.users) :
    RefInvTable (reset_daily_limits now s).users := by
  unfold reset_daily_limits
  split
  · simp only []
    intro uid u hu
    rw [lookup_map_reset] at hu
    cases hl : lookupUser s.users uid with
    | none => rw [hl] at hu; cases hu
    | some v =>
      rw [hl, Option.map_some'] at hu
      injection hu with hu
      exact hu ▸ h uid v hl
  · exact h

theorem refInvTable_automsg {now : Timestamp} {s : BotState} (h : RefInvTable s.users) :
    RefInvTable (send_automatic_messages now s).users := by
  unfold send_automatic_messages
  split
  · simp only []
    intro uid u hu
    rw [lookup_map_automsg] at hu
    cases hl : lookupUser s.users uid with
    | none => rw [hl] at hu; cases hu
    | some v =>
      rw [hl, Option.map_some'] at hu
      injection hu with hu
      subst hu
      by_cases ha : v.trading_active = true
      · rw [if_pos ha]
        exact h uid v hl
      · rw [if_neg ha]
        exact h uid v hl
  · exact h

/-- Where a settlement sweep leaves each record: untouched, or with only
the withdrawable profit zeroed. -/
theorem lookup_sweep_foldl (now : Timestamp) (el : List String) :
    ∀ (s : BotState) (uid : String),
      lookupUser (el.foldl (sweep_user now) s).users uid = lookupUser s.users uid ∨
      (∃ u, lookupUser s.users uid = some u ∧
        lookupUser (el.foldl (sweep_user now) s).users uid =
          some { u with withdrawable_profit := 0 }) := by
  induction el with
  | nil => intro s uid; exact Or.inl rfl
  | cons a rest ih =>
    intro s uid
    rw [List.foldl_cons]
    have h1 : lookupUser (sweep_user now s a).users uid =
        if uid = a then (lookupUser s.users uid).map
          (fun u => { u with withdrawable_profit := 0 }) else lookupUser s.users uid := by
      rw [sweep_user_users, lookup_updAssoc]
      by_cases hk : uid = a
      · rw [if_pos hk, if_pos hk, hk]
      · rw [if_neg hk, if_neg hk]
    by_cases hk : uid = a
    · rw [if_pos hk] at h1
      cases hl : lookupUser s.users uid with
      | none =>
        rw [hl, Option.map_none'] at h1
        rcases ih (sweep_user now s a) uid with h2 | ⟨u', hu', h2⟩
        · exact Or.inl (by rw [h2, h1])
        · rw [h1] at hu'
          cases hu'
      | some u =>
        rw [hl, Option.map_some'] at h1
        rcases ih (sweep_user now s a) uid with h2 | ⟨u', hu', h2⟩
        · exact Or.inr ⟨u, rfl, by rw [h2, h1]⟩
        · rw [h1] at hu'
          injection hu' with hu'
          subst hu'
          exact Or.inr ⟨u, rfl, h2⟩
    · rw [if_neg hk] at h1
      rcases ih (sweep_user now s a) uid with h2 | ⟨u', hu', h2⟩
      · exact Or.inl (by rw [h2, h1])
      · rw [h1] at hu'
        exact Or.inr ⟨u', hu', h2⟩

/-- Where one batch tick leaves each record: untouched, or with only the
withdrawable profit zeroed. -/
theorem lookup_batches (now : Timestamp) (s : BotState) (uid : String) :
    lookupUser (process_payment_batches now s).users uid = lookupUser s.users uid ∨
    (∃ u, lookupUser s.users uid = some u ∧
      lookupUser (process_payment_batches now s).users uid =
        some { u with withdrawable_profit := 0 }) := by
  unfold process_payment_batches
  simp only []
  cases hfi : s.payments.findIdx? (fun b => !b.completed) with
  | some i =>
    simp only []
    rw [hfi]
    simp only []
    split
    · exact lookup_sweep_foldl now _ _ uid
    · exact Or.inl rfl
  | none =>
    simp only []
    cases hfi2 : (s.payments ++
        [({ id := s.payments.length + 1, target_users := 1000, current_users := 0,
            payout_date := none, completed := false } : Batch)]).findIdx?
        (fun b => !b.completed) with
    | none => exact Or.inl rfl
    | some i =>
      simp only []
      split
      · exact lookup_sweep_foldl now _ _ uid
      · exact Or.inl rfl

theorem refInvTable_batches {now : Timestamp} {s : BotState} (h : RefInvTable s.users) :
    RefInvTable (process_payment_batches now s).users := by
  intro uid u hu
  rcases lookup_batches now s uid with h1 | ⟨v, hv, h1⟩
  · rw [h1] at hu
    exact h uid u hu
  · rw [h1] at hu
    injection hu with hu
    exact hu ▸ h uid v hv

theorem refInvTable_applyOp (op : Op) (s : BotState) (h : RefInvTable s.users) :
    RefInvTable (applyOp op s).users := by
  cases op with
  | opStart uid refArg today => exact refInvTable_start h
  | opToggle uid => exact refInvTable_toggle h
  | opGetUser uid => exact refInvTable_get_user uid h
  | opMemoryWin uid now => exact refInvTable_memory_win h
  | opMemoryMiss uid => exact refInvTable_memory_miss h
  | opDiceRoll uid win now => exact refInvTable_dice_roll h
  | opProfits draw now => exact refInvTable_profits h
  | opReset now => exact refInvTable_reset h
  | opAutoMsg now => exact refInvTable_automsg h
  | opBatches now => exact refInvTable_batches h

/-- C4: in every reachable state, every stored user has at most 6
referrals, and a user whose `referral_bonus_eligible` flag is still set has
strictly fewer than 6 — so eligibility is gone exactly once the count
reaches 6 (the only writer is the referral block of `start`, lines 406-422,
which increments only below 6 and clears the flag on reaching 6). -/
theorem C4_referral_invariant (s : BotState) (hs : Reachable s) (uid : String) (u : User)
    (hu : lookupUser s.users uid = some u) :
    u.referrals ≤ 6 ∧ (u.referral_bonus_eligible = true → u.referrals < 6) := by
  have hinv : RefInvTable s.users := by
    clear hu
    induction hs with
    | refl =>
      intro uid u hu
      simp [initState] at hu
    | tail hprev hstep ih =>
      obtain ⟨op, rfl⟩ := hstep
      exact refInvTable_applyOp op _ ih
  exact hinv uid u hu

/-- Witness for C4 one step from startup. -/
theorem C4_witness :
    Reachable (applyOp (Op.opGetUser ("a")) initState) ∧
    lookupUser (applyOp (Op.opGetUser ("a")) initState).users ("a") = some defaultUser ∧
    (defaultUser.referrals ≤ 6 ∧
      (defaultUser.referral_bonus_eligible = true → defaultUser.referrals < 6)) :=
  ⟨Relation.ReflTransGen.single ⟨Op.opGetUser ("a"), rfl⟩, by decide,
   C4_referral_invariant (applyOp (Op.opGetUser ("a")) initState)
     (Relation.ReflTransGen.single ⟨Op.opGetUser ("a"), rfl⟩) ("a") defaultUser (by decide)⟩

/-! ## C5: which operations can deactivate trading -/

/-- A stored user with trading switched on. -/
def userActive : User :=
  { defaultUser with trading_active := true }

/-- A one-user store holding the active user. -/
def stateC5 : BotState :=
  { users := [(("u"), userActive)], payments := [initialBatch], transactions := [] }

/-- C5 as stated is false: the manual toggle (lines 587-589) is a
user-triggered operation and it does set `trading_active` from true to
false — on an active user `toggle_trading` deactivates unconditionally. -/
theorem C5_counterexample :
    lookupUser stateC5.users ("u") = some userActive ∧
    userActive.trading_active = true ∧
    lookupUser (toggle_trading ("u") stateC5).users ("u") =
      some { userActive with trading_active := false } := by
  refine ⟨by decide, by decide, by decide⟩

theorem activeLookup_updAssoc {l : List (String × User)} {k : String} {f : User → User}
    (hf : ∀ v, v.trading_active = true → (f v).trading_active = true)
    {uid : String} {u : User} (hu : lookupUser l uid = some u)
    (ha : u.trading_active = true) :
    ∃ u', lookupUser (updAssoc l k f) uid = some u' ∧ u'.trading_active = true := by
  rw [lookup_updAssoc]
  by_cases hk : uid = k
  · subst hk
    rw [if_pos rfl, hu, Option.map_some']
    exact ⟨f u, rfl, hf u ha⟩
  · rw [if_neg hk]
    exact ⟨u, hu, ha⟩

theorem active_update_balance {uid' : String} {amount : ℚ} {note : String}
    {now : Timestamp} {s : BotState} {uid : String} {u : User}
    (hu : lookupUser s.users uid = some u) (ha : u.trading_active = true) :
    ∃ u', lookupUser (update_balance uid' amount note now s).users uid = some u' ∧
      u'.trading_active = true := by
  unfold update_balance
  simp only []
  exact @activeLookup_updAssoc (get_user s uid').1.users uid'
    (fun v => { v with balance := v.balance + amount })
    (fun v hv => hv) uid u (lookup_get_user_some uid' hu) ha

theorem active_update_login_streak {uid' : String} {today : Int} {s : BotState}
    {uid : String} {u : User}
    (hu : lookupUser s.users uid = some u) (ha : u.trading_active = true) :
    ∃ u', lookupUser (update_login_streak uid' today s).users uid = some u' ∧
      u'.trading_active = true := by
  unfold update_login_streak
  simp only []
  by_cases hc : (get_user s uid').2.streak_last_login ≠ some today
  · rw [if_pos hc]
    simp only []
    exact @activeLookup_updAssoc (get_user s uid').1.users uid' (fun v => { v with streak_count := if (get_user s uid').2.streak_last_login = some (today - 1) then (get_user s uid').2.streak_count + 1 else 1, balance := v.balance + ((min (500 + ((if (get_user s uid').2.streak_last_login = some (today - 1) then (get_user s uid').2.streak_count + 1 else 1) - 1) * 100) 1100 : Nat) : ℚ), streak_last_login := some today }) (fun v hv => hv) uid u (lookup_get_user_some uid' hu) ha
  · rw [if_neg hc]
    exact ⟨u, lookup_get_user_some uid' hu, ha⟩

theorem active_check {uid' : String} {s : BotState} {uid : String} {u : User}
    (hu : lookupUser s.users uid = some u) (ha : u.trading_active = true) :
    ∃ u', lookupUser (check_trading_activation uid' s).1.users uid = some u' ∧
      u'.trading_active = true := by
  unfold check_trading_activation
  split
  next heq => exact ⟨u, hu, ha⟩
  next v heq =>
    split
    · split
      · simp only []
        exact @activeLookup_updAssoc s.users uid' (fun w => { w with trading_active := true, trading_capital := 5000 + (w.referrals : ℚ) * 5000 }) (fun w _ => rfl) uid u hu ha
      · exact ⟨u, hu, ha⟩
    · exact ⟨u, hu, ha⟩

theorem active_referral_step {rid : String} {s : BotState} {uid : String} {u : User}
    (hu : lookupUser s.users uid = some u) (ha : u.trading_active = true) :
    ∃ u', lookupUser (referral_step rid s).users uid = some u' ∧
      u'.trading_active = true := by
  unfold referral_step
  split
  next heq => exact ⟨u, hu, ha⟩
  next referrer heq =>
    split
    · split
      · simp only []
        obtain ⟨u1, hu1, ha1⟩ :=
          @activeLookup_updAssoc s.users rid (fun r => { r with referrals := r.referrals + 1, balance := r.balance + 5000, trading_capital := r.trading_capital + 5000 }) (fun v hv => hv) uid u hu ha
        obtain ⟨u2, hu2, ha2⟩ :=
          @activeLookup_updAssoc (updAssoc s.users rid (fun r => { r with referrals := r.referrals + 1, balance := r.balance + 5000, trading_capital := r.trading_capital + 5000 })) rid (fun r => { r with referral_bonus_eligible := false }) (fun v hv => hv) uid u1 hu1 ha1
        exact active_check hu2 ha2
      · simp only []
        exact @activeLookup_updAssoc s.users rid (fun r => { r with referrals := r.referrals + 1, balance := r.balance + 5000, trading_capital := r.trading_capital + 5000 }) (fun v hv => hv) uid u hu ha
    · exact ⟨u, hu, ha⟩

theorem active_start {uid' : String} {refArg : Option String} {today : Int}
    {s : BotState} {uid : String} {u : User}
    (hu : lookupUser s.users uid = some u) (ha : u.trading_active = true) :
    ∃ u', lookupUser (start uid' refArg today s).users uid = some u' ∧
      u'.trading_active = true := by
  cases refArg with
  | none =>
    unfold start
    simp only []
    exact active_update_login_streak (lookup_get_user_some uid' hu) ha
  | some rid =>
    unfold start
    simp only []
    by_cases hne : rid ≠ uid'
    · rw [if_pos hne]
      obtain ⟨u2, hu2, ha2⟩ := active_referral_step (lookup_get_user_some uid' hu) ha
      exact active_update_login_streak hu2 ha2
    · rw [if_neg hne]
      exact active_update_login_streak (lookup_get_user_some uid' hu) ha

theorem active_memory_win {uid' : String} {now : Timestamp} {s : BotState}
    {uid : String} {u : User}
    (hu : lookupUser s.users uid = some u) (ha : u.trading_active = true) :
    ∃ u', lookupUser (memory_win uid' now s).users uid = some u' ∧
      u'.trading_active = true := by
  unfold memory_win
  simp only []
  obtain ⟨u1, hu1, ha1⟩ :=
    @activeLookup_updAssoc (get_user s uid').1.users uid' (fun v => { v with game_stats := { v.game_stats with memory_wins := v.game_stats.memory_wins + 1, memory_earnings := v.game_stats.memory_earnings + 800 } }) (fun v hv => hv) uid u (lookup_get_user_some uid' hu) ha
  exact active_update_balance hu1 ha1

theorem active_memory_miss {uid' : String} {s : BotState} {uid : String} {u : User}
    (hu : lookupUser s.users uid = some u) (ha : u.trading_active = true) :
    ∃ u', lookupUser (memory_miss uid' s).users uid = some u' ∧
      u'.trading_active = true := by
  unfold memory_miss
  simp only []
  exact @activeLookup_updAssoc (get_user s uid').1.users uid' (fun v => { v with game_attempts := { v.game_attempts with memory := v.game_attempts.memory - 1 } }) (fun v hv => hv) uid u (lookup_get_user_some uid' hu) ha

theorem active_dice_roll {uid' : String} {win : Bool} {now : Timestamp} {s : BotState}
    {uid : String} {u : User}
    (hu : lookupUser s.users uid = some u) (ha : u.trading_active = true) :
    ∃ u', lookupUser (dice_roll uid' win now s).users uid = some u' ∧
      u'.trading_active = true := by
  unfold dice_roll
  simp only []
  split
  · exact ⟨u, lookup_get_user_some uid' hu, ha⟩
  · obtain ⟨u1, hu1, ha1⟩ :=
      @activeLookup_updAssoc (get_user s uid').1.users uid' (fun v => { v with game_attempts := { v.game_attempts with dice := v.game_attempts.dice - 1 } }) (fun v hv => hv) uid u (lookup_get_user_some uid' hu) ha
    split
    · obtain ⟨u2, hu2, ha2⟩ :=
        @activeLookup_updAssoc (updAssoc (get_user s uid').1.users uid' (fun v => { v with game_attempts := { v.game_attempts with dice := v.game_attempts.dice - 1 } })) uid' (fun v => { v with game_stats := { v.game_stats with dice_wins := v.game_stats.dice_wins + 1, dice_earnings := v.game_stats.dice_earnings + 800 } }) (fun v hv => hv) uid u1 hu1 ha1
      exact active_update_balance hu2 ha2
    · exact ⟨u1, hu1, ha1⟩

theorem active_profits {draw : String → ℚ → ℚ → ℚ} {now : Timestamp} {s : BotState}
    {uid : String} {u : User}
    (hu : lookupUser s.users uid = some u) (ha : u.trading_active = true) :
    ∃ u', lookupUser (calculate_daily_profits draw now s).users uid = some u' ∧
      u'.trading_active = true := by
  unfold calculate_daily_profits
  simp only []
  rw [lookup_map_profit, hu, Option.map_some']
  refine ⟨_, rfl, ?_⟩
  unfold profitStepUser
  rw [if_pos ha]
  exact ha

theorem active_batches {now : Timestamp} {s : BotState} {uid : String} {u : User}
    (hu : lookupUser s.users uid = some u) (ha : u.trading_active = true) :
    ∃ u', lookupUser (process_payment_batches now s).users uid = some u' ∧
      u'.trading_active = true := by
  rcases lookup_batches now s uid with h | ⟨v, hv, h⟩
  · exact ⟨u, by rw [h, hu], ha⟩
  · rw [hu] at hv
    injection hv with hv
    subst hv
    exact ⟨_, h, ha⟩

theorem lookup_toggle_other {v : String} {s : BotState} {uid : String} (hne : uid ≠ v) :
    lookupUser (toggle_trading v s).users uid = lookupUser s.users uid := by
  unfold toggle_trading
  simp only []
  split
  · rw [lookup_updAssoc, if_neg hne, lookup_get_user_other v hne]
  · split
    · rw [lookup_updAssoc, if_neg hne, lookup_get_user_other v hne]
    · exact lookup_get_user_other v hne

/-- The operations the code lets flip `trading_active` from true to false
for a given user: the daily reset (lines 908-911), the midnight branch of
`send_automatic_messages` (lines 946-951), and — against the claim — the
manual toggle by that very user (lines 587-589). -/
def deactivatingOp (op : Op) (uid : String) : Prop :=
  (∃ now, op = Op.opReset now) ∨ (∃ now, op = Op.opAutoMsg now) ∨ op = Op.opToggle uid

/-- C5 amended: if a stored user is trading-active before an operation and
inactive after it, the operation was the daily reset, the midnight branch
of the automatic messenger, or that user's own manual toggle — no other
operation (referral application, session start, games, profit accrual,
batch sweep, user creation, or a toggle by a different user) ever flips
`trading_active` from true to false. -/
theorem C5_deactivation_sources (op : Op) (s : BotState) (uid : String) (u u' : User)
    (hu : lookupUser s.users uid = some u)
    (hu' : lookupUser (applyOp op s).users uid = some u')
    (ha : u.trading_active = true) (ha' : u'.trading_active = false) :
    deactivatingOp op uid := by
  cases op with
  | opReset now => exact Or.inl ⟨now, rfl⟩
  | opAutoMsg now => exact Or.inr (Or.inl ⟨now, rfl⟩)
  | opToggle v =>
    by_cases hv : v = uid
    · subst hv
      exact Or.inr (Or.inr rfl)
    · exfalso
      have hu'2 : lookupUser (toggle_trading v s).users uid = some u' := hu'
      rw [lookup_toggle_other (fun hc => hv hc.symm), hu] at hu'2
      injection hu'2 with h
      rw [← h] at ha'
      rw [ha] at ha'
      exact absurd ha' (by decide)
  | opStart uid' refArg today =>
    exfalso
    obtain ⟨u2, h1, h2⟩ := @active_start uid' refArg today s uid u hu ha
    have hu'2 : lookupUser (start uid' refArg today s).users uid = some u' := hu'
    rw [h1] at hu'2
    injection hu'2 with h
    rw [h] at h2
    rw [h2] at ha'
    exact absurd ha' (by decide)
  | opGetUser uid' =>
    exfalso
    have hu'2 : lookupUser (get_user s uid').1.users uid = some u' := hu'
    rw [lookup_get_user_some uid' hu] at hu'2
    injection hu'2 with h
    rw [← h] at ha'
    rw [ha] at ha'
    exact absurd ha' (by decide)
  | opMemoryWin uid' now =>
    exfalso
    obtain ⟨u2, h1, h2⟩ := @active_memory_win uid' now s uid u hu ha
    have hu'2 : lookupUser (memory_win uid' now s).users uid = some u' := hu'
    rw [h1] at hu'2
    injection hu'2 with h
    rw [h] at h2
    rw [h2] at ha'
    exact absurd ha' (by decide)
  | opMemoryMiss uid' =>
    exfalso
    obtain ⟨u2, h1, h2⟩ := @active_memory_miss uid' s uid u hu ha
    have hu'2 : lookupUser (memory_miss uid' s).users uid = some u' := hu'
    rw [h1] at hu'2
    injection hu'2 with h
    rw [h] at h2
    rw [h2] at ha'
    exact absurd ha' (by decide)
  | opDiceRoll uid' win now =>
    exfalso
    obtain ⟨u2, h1, h2⟩ := @active_dice_roll uid' win now s uid u hu ha
    have hu'2 : lookupUser (dice_roll uid' win now s).users uid = some u' := hu'
    rw [h1] at hu'2
    injection hu'2 with h
    rw [h] at h2
    rw [h2] at ha'
    exact absurd ha' (by decide)
  | opProfits draw now =>
    exfalso
    obtain ⟨u2, h1, h2⟩ := @active_profits draw now s uid u hu ha
    have hu'2 : lookupUser (calculate_daily_profits draw now s).users uid = some u' := hu'
    rw [h1] at hu'2
    injection hu'2 with h
    rw [h] at h2
    rw [h2] at ha'
    exact absurd ha' (by decide)
  | opBatches now =>
    exfalso
    obtain ⟨u2, h1, h2⟩ := @active_batches now s uid u hu ha
    have hu'2 : lookupUser (process_payment_batches now s).users uid = some u' := hu'
    rw [h1] at hu'2
    injection hu'2 with h
    rw [h] at h2
    rw [h2] at ha'
    exact absurd ha' (by decide)

/-- Witness for the amended C5: the toggle of the active user is reported
as a legitimate deactivator. -/
theorem C5_witness :
    lookupUser stateC5.users ("u") = some userActive ∧
    lookupUser (applyOp (Op.opToggle ("u")) stateC5).users ("u") =
      some { userActive with trading_active := false } ∧
    deactivatingOp (Op.opToggle ("u")) ("u") :=
  ⟨by decide, by decide,
   C5_deactivation_sources (Op.opToggle ("u")) stateC5 ("u") userActive
     { userActive with trading_active := false } (by decide) (by decide) (by decide) (by decide)⟩

end AirefTraders